import Mathlib

/-!
Verification of the gblobs storage engine (Go) against its specification,
via a shallow embedding of the core package (`gblobs/id.go`, `gblobs/encrypt.go`,
`gblobs/store.go`, the compression wrappers, `gblobs/pathutil.go`).

Bytes are modelled as `List Nat` (each element a byte value), Go strings of
hex identifiers as Lean `String` (all identifiers are ASCII, so Go's byte
slicing coincides with character slicing), the filesystem as an association
list from path to file contents, and `float64` averages as rationals.

Go standard-library cryptographic and compression primitives (AES-GCM,
gzip, SHA-256) are external to this repository; they enter the embedding as
explicit function parameters, and theorems that depend on their documented
behaviour (losslessness of gzip, the AES-GCM seal/open round trip and its
authentication guarantee) take that behaviour as a named hypothesis.
-/

namespace Gblobs

/-- Byte strings: one `Nat` per byte. -/
abbrev Bytes := List Nat

/-- Error taxonomy of the engine, mirroring the distinct `error` values the Go
code can return: filesystem failures from `os` calls, `os.IsNotExist`
absences, `aes.NewCipher`'s invalid-key-size error, `DecryptBlob`'s
"ciphertext too short" error, and `gcm.Open`'s message-authentication
failure. -/
inductive BlobError where
  | ioError
  | notFound
  | keySize (n : Nat)
  | shortCiphertext
  | authFailed
  deriving DecidableEq

/-- Embedding of `KeyFromPassword` (`gblobs/encrypt.go`): `b := []byte(pw)`,
`key := make([]byte, 32)`, `copy(key, b)` — the password bytes are truncated
to 32 bytes, and the 32-byte buffer keeps its zero initialisation past the
copied portion. -/
def KeyFromPassword (pw : Bytes) : Bytes :=
  pw.take 32 ++ List.replicate (32 - pw.length) 0

/-- Character-slice `s[a:b]` of a Go string holding ASCII data
(`blobID[:2]`, `blobID[2:5]`, ...). -/
def strSlice (s : String) (a b : Nat) : String :=
  ((s.toList.drop a).take (b - a)).asString

/-- Embedding of `BlobIDToPath` (`gblobs/id.go`): identifiers of fewer than
8 characters map to the flat path `id + ".blob"`; otherwise the first 2, next
3 and next 3 characters become three directory levels and the remainder the
base filename, with the `.blob` extension appended. -/
def BlobIDToPath (blobID : String) : String :=
  if blobID.length < 8 then blobID ++ ".blob"
  else
    strSlice blobID 0 2 ++ "/" ++ strSlice blobID 2 5 ++ "/" ++
      strSlice blobID 5 8 ++ "/" ++ strSlice blobID 8 blobID.length ++ ".blob"

/-- `crypto/aes.NewCipher` accepts key lengths 16, 24 or 32 bytes and fails
with `KeySizeError` otherwise. -/
def validAESKeyLen (n : Nat) : Bool :=
  n == 16 || n == 24 || n == 32

/-- The AES-GCM standard nonce size returned by `gcm.NonceSize()`. -/
def gcmNonceSize : Nat := 12

/-- Embedding of `EncryptBlob` (`gblobs/encrypt.go`). The AES-GCM sealing
primitive `gcmSeal` (a Go standard-library function, external to the
repository) and the freshly drawn random `nonce` are explicit parameters.
Empty key: the data is returned unchanged. Otherwise `aes.NewCipher`
validates the key length, a nonce of `gcm.NonceSize()` bytes is drawn, and
`gcm.Seal(nonce, nonce, data, nil)` produces the nonce followed by the
ciphertext. -/
def EncryptBlob (gcmSeal : Bytes → Bytes → Bytes → Bytes)
    (data key nonce : Bytes) : Except BlobError Bytes :=
  if key.length = 0 then .ok data
  else if validAESKeyLen key.length then .ok (nonce ++ gcmSeal key nonce data)
  else .error (.keySize key.length)

/-- Embedding of `DecryptBlob` (`gblobs/encrypt.go`). The AES-GCM opening
primitive `gcmOpen` (returning `none` exactly when `gcm.Open` reports a
message-authentication failure) is an explicit parameter. Empty key: the
data is returned unchanged. Otherwise the key length is validated, inputs
shorter than one nonce are rejected with "ciphertext too short", and the
input is split into nonce and ciphertext at `gcm.NonceSize()`. -/
def DecryptBlob (gcmOpen : Bytes → Bytes → Bytes → Option Bytes)
    (encData key : Bytes) : Except BlobError Bytes :=
  if key.length = 0 then .ok encData
  else if validAESKeyLen key.length then
    if encData.length < gcmNonceSize then .error .shortCiphertext
    else
      match gcmOpen key (encData.take gcmNonceSize) (encData.drop gcmNonceSize) with
      | some plain => .ok plain
      | none => .error .authFailed
  else .error (.keySize key.length)

/-- Embedding of `CompressBlob` (gzip wrapper): writes the data through a
`gzip.Writer` into a buffer. The gzip encoder `gzipC` (standard library) is
an explicit parameter; writing to an in-memory buffer does not fail. -/
def CompressBlob (gzipC : Bytes → Bytes) (data : Bytes) : Except BlobError Bytes :=
  .ok (gzipC data)

/-- Embedding of `DecompressBlob` (gzip wrapper): reads the data back
through a `gzip.Reader`. The gzip decoder `gzipD` (standard library) is an
explicit parameter and may fail on malformed streams. -/
def DecompressBlob (gzipD : Bytes → Except BlobError Bytes) (compData : Bytes) :
    Except BlobError Bytes :=
  gzipD compData

/-- The write direction of the transform pipeline as `PutBlob` composes it:
`CompressBlob` then `EncryptBlob`. -/
def sealPipeline (gzipC : Bytes → Bytes) (gcmSeal : Bytes → Bytes → Bytes → Bytes)
    (key nonce data : Bytes) : Except BlobError Bytes :=
  (CompressBlob gzipC data).bind (fun c => EncryptBlob gcmSeal c key nonce)

/-- The read direction of the transform pipeline as `GetBlob` composes it:
`DecryptBlob` then `DecompressBlob`. -/
def openPipeline (gzipD : Bytes → Except BlobError Bytes)
    (gcmOpen : Bytes → Bytes → Bytes → Option Bytes)
    (key sealed : Bytes) : Except BlobError Bytes :=
  (DecryptBlob gcmOpen sealed key).bind (DecompressBlob gzipD)

/-- Embedding of the metadata record `BlobType` (`gblobs/types.go`). The
ingestion instant is an abstract tick count; Go's `Time.UTC()` changes only
the presentation location of an instant, never the instant itself, so it is
the identity here. -/
structure BlobType where
  Name : String
  URI : String
  Length : Int
  BlobHash : String
  IngestionTime : Nat
  Owner : String
  deriving DecidableEq

/-- The store's file tree: an association list from absolute path to file
contents. A write prepends, and lookup returns the most recent entry, which
models `os.WriteFile`'s overwrite semantics. -/
abbrev FS := List (String × Bytes)

/-- `os.Stat` / `os.ReadFile`: the contents at a path, if present. -/
def fsLookup : FS → String → Option Bytes
  | [], _ => none
  | (k, v) :: rest, p => if k = p then some v else fsLookup rest p

/-- `os.WriteFile`: record new contents at a path. -/
def fsInsert (fs : FS) (p : String) (v : Bytes) : FS :=
  (p, v) :: fs

/-- `os.Remove`'s effect: drop every entry at a path. -/
def fsErase (fs : FS) (p : String) : FS :=
  fs.filter (fun e => ¬ (e.1 = p))

/-- Number of stored files at a path. -/
def fsCount (fs : FS) (p : String) : Nat :=
  fs.countP (fun e => e.1 == p)

/-- Environment of one `LocalStore` put: the engine state (`s.path`,
`s.key`), the random nonce this call draws, the standard-library primitives
(`GenerateBlobID`'s SHA-256 digest as `gen`, gzip, AES-GCM, JSON
serialization as `marshal`), and oracles deciding whether `EnsureDir` on a
path's parent directory and `os.WriteFile` on a path succeed. -/
structure PutEnv where
  root : String
  key : Bytes
  nonce : Bytes
  gen : Bytes → String
  gzipC : Bytes → Bytes
  gcmSeal : Bytes → Bytes → Bytes → Bytes
  marshal : BlobType → Except BlobError Bytes
  ensureOk : String → Bool
  writeOk : String → Bool

/-- The object path `filepath.Join(s.path, BlobIDToPath(blobID))` for a
payload. -/
def objectPath (env : PutEnv) (data : Bytes) : String :=
  env.root ++ "/" ++ BlobIDToPath (env.gen data)

/-- Embedding of `PutBlob` (`gblobs/store.go`): compute the identifier and
its sharded path, ensure the parent directory, return the identifier
untouched if the object file already exists (dedup short-circuit), otherwise
compress, encrypt, write the object file, stamp the engine-computed hash and
length into the caller's metadata, serialize it and write the sidecar.
Returns the filesystem as left by the call together with the result, so a
failure's partial state stays observable. -/
def putBlob (env : PutEnv) (fs : FS) (data : Bytes) (meta : BlobType) :
    FS × Except BlobError String :=
  let blobID := env.gen data
  let fullPath := env.root ++ "/" ++ BlobIDToPath blobID
  if env.ensureOk fullPath = false then (fs, .error .ioError)
  else if (fsLookup fs fullPath).isSome then (fs, .ok blobID)
  else
    match CompressBlob env.gzipC data with
    | .error e => (fs, .error e)
    | .ok compressed =>
      match EncryptBlob env.gcmSeal compressed env.key env.nonce with
      | .error e => (fs, .error e)
      | .ok content =>
        if env.writeOk fullPath = false then (fs, .error .ioError)
        else
          let fs1 := fsInsert fs fullPath content
          let meta1 : BlobType :=
            { meta with BlobHash := blobID, Length := (data.length : Int) }
          match env.marshal meta1 with
          | .error e => (fs1, .error e)
          | .ok mb =>
            if env.writeOk (fullPath ++ ".meta") = false then (fs1, .error .ioError)
            else (fsInsert fs1 (fullPath ++ ".meta") mb, .ok blobID)

/-- The filesystem after `n` further `PutBlob` calls with the same payload. -/
def putMany (env : PutEnv) (data : Bytes) (meta : BlobType) : Nat → FS → FS
  | 0, fs => fs
  | n + 1, fs => putMany env data meta n (putBlob env fs data meta).1

/-- Embedding of `os.Remove`: a permission-style failure (per the
`removeFails` oracle) leaves the file in place and reports an `IOError`;
otherwise a present file is removed and an absent path reports the
not-exist error. -/
def osRemove (removeFails : String → Bool) (fs : FS) (p : String) :
    FS × Except BlobError Unit :=
  if removeFails p then (fs, .error .ioError)
  else if (fsLookup fs p).isSome then (fsErase fs p, .ok ())
  else (fs, .error .notFound)

/-- Embedding of `DeleteBlob` (`gblobs/store.go`): derive the object and
sidecar paths, call `os.Remove` on both with `_ =` (both results discarded),
and return `nil` unconditionally. -/
def deleteBlob (removeFails : String → Bool) (root : String) (fs : FS)
    (blobID : String) : FS × Except BlobError Unit :=
  let fullPath := root ++ "/" ++ BlobIDToPath blobID
  let metaFile := fullPath ++ ".meta"
  let fs1 := (osRemove removeFails fs fullPath).1
  let fs2 := (osRemove removeFails fs1 metaFile).1
  (fs2, .ok ())

/-- Engine configuration held on the `LocalStore` instance: root path and
optional derived key. -/
structure StoreCfg where
  path : String
  key : Option Bytes
  deriving DecidableEq

/-- Embedding of `os.MkdirAll` (via `EnsureDir`): fails only on
permission/path problems (the `mkdirFails` oracle); creating an
already-existing directory is a no-op that succeeds. -/
def mkdirAll (mkdirFails : String → Bool) (dirs : List String) (p : String) :
    List String × Except BlobError Unit :=
  if mkdirFails p then (dirs, .error .ioError)
  else if dirs.contains p then (dirs, .ok ())
  else (p :: dirs, .ok ())

/-- Embedding of `CreateStore` (`gblobs/store.go`): record the root path on
the engine, derive and store the key when a passphrase is supplied (`nil`
otherwise), then `EnsureDir` the root. -/
def createStore (mkdirFails : String → Bool) (dirs : List String) (path : String)
    (keyOpt : Option Bytes) : StoreCfg × List String × Except BlobError Unit :=
  let cfg : StoreCfg := { path := path, key := keyOpt.map KeyFromPassword }
  let res := mkdirAll mkdirFails dirs path
  (cfg, res.1, res.2)

/-- A directory of the store tree as `Stats` walks it: the names of its
plain files and its subdirectories (subdirectory names play no role in the
statistics, only their contents do). The root of the tree is the store
root. -/
inductive FTree where
  | node (files : List String) (subs : List FTree)

/-- `filepath.Ext`: the suffix of the name beginning at the final dot
(including the dot), empty when the name has no dot. -/
def extOf (name : String) : String :=
  if name.toList.contains '.' then
    "." ++ ((name.toList.reverse.takeWhile (fun c => c ≠ '.')).reverse).asString
  else ""

/-- The per-directory observations of the `visit` recursion in `Stats`
(`gblobs/store.go`): one `(depth, entryCount)` pair per visited directory —
but only when the directory has at least one entry (`len(fis) > 0`), exactly
as the Go code appends to `countsPerLevel`. Subdirectory observations are
produced during the loop, the directory's own record after it. -/
def walkObs : FTree → Nat → List (Nat × Nat)
  | .node files subs, d =>
    (subs.attach.map (fun s => walkObs s.1 (d + 1))).flatten ++
      (if files.length + subs.length ≠ 0 then [(d, files.length + subs.length)] else [])
termination_by t _ => sizeOf t
decreasing_by
  simp_wf
  have h := List.sizeOf_lt_of_mem s.2
  omega

/-- Every visited directory's `(depth, entryCount)` pair, the empty ones
included: the directories the walk observes, in the sense of the
specification's words. -/
def allDirObs : FTree → Nat → List (Nat × Nat)
  | .node files subs, d =>
    (subs.attach.map (fun s => allDirObs s.1 (d + 1))).flatten ++ [(d, files.length + subs.length)]
termination_by t _ => sizeOf t
decreasing_by
  simp_wf
  have h := List.sizeOf_lt_of_mem s.2
  omega

/-- `totalBlobs` of `Stats`: files whose `filepath.Ext` is `.blob`, summed
over the whole tree. -/
def walkBlobs : FTree → Nat
  | .node files subs =>
    files.countP (fun n => extOf n == ".blob") + (subs.attach.map (fun s => walkBlobs s.1)).sum
termination_by t => sizeOf t
decreasing_by
  simp_wf
  have h := List.sizeOf_lt_of_mem s.2
  omega

/-- `maxDepth` of `Stats`: starts at 0 and is raised to `depth + 1` for
every subdirectory encountered at `depth`. -/
def walkMaxDepth : FTree → Nat → Nat
  | .node _ subs, d =>
    (subs.attach.map (fun s => walkMaxDepth s.1 (d + 1))).foldl max d
termination_by t _ => sizeOf t
decreasing_by
  simp_wf
  have h := List.sizeOf_lt_of_mem s.2
  omega

/-- `countsPerLevel[l]`, in recorded order. -/
def levelVals (obs : List (Nat × Nat)) (l : Nat) : List Nat :=
  (obs.filter (fun p => p.1 == l)).map Prod.snd

/-- `MaxCountPerLevel` of `Stats`: for each level `0 .. maxDepth` the
maximum of `countsPerLevel[l]`, and 0 where the level has no recorded
directory. (Go computes the maximum starting from `vals[0]`; over `Nat`
counts this equals a `max`-fold from 0, with the empty case yielding the
explicitly appended 0.) -/
def maxCountPerLevel (t : FTree) : List Nat :=
  (List.range (walkMaxDepth t 0 + 1)).map (fun l => (levelVals (walkObs t 0) l).foldl max 0)

/-- `totalCount` of `Stats`: all recorded entry counts, summed level by
level over `0 .. maxDepth`. -/
def statsTotalCount (t : FTree) : Nat :=
  ((List.range (walkMaxDepth t 0 + 1)).map (fun l => (levelVals (walkObs t 0) l).sum)).sum

/-- `totalDirectories` of `Stats`: the number of recorded directories,
summed level by level over `0 .. maxDepth`. -/
def statsTotalDirs (t : FTree) : Nat :=
  ((List.range (walkMaxDepth t 0 + 1)).map (fun l => (levelVals (walkObs t 0) l).length)).sum

/-- `AverageCountPerLevel` of `Stats` (a `float64` quotient, modelled as a
rational): `totalCount / totalDirectories`, and 0 when no directory was
recorded. -/
def averageCountPerLevel (t : FTree) : ℚ :=
  if statsTotalDirs t = 0 then 0 else (statsTotalCount t : ℚ) / (statsTotalDirs t : ℚ)

/-- The `StoreStats` record (`gblobs/types.go`). -/
structure StoreStats where
  TotalBlobCount : Nat
  MaxCountPerLevel : List Nat
  AverageCountPerLevel : ℚ
  deriving DecidableEq

/-- Embedding of `Stats` (`gblobs/store.go`) on a store tree. -/
def statsOfTree (t : FTree) : StoreStats :=
  { TotalBlobCount := walkBlobs t
    MaxCountPerLevel := maxCountPerLevel t
    AverageCountPerLevel := averageCountPerLevel t }

/-- The average the specification's words describe: total entries observed
divided by the total number of directories observed at any depth — every
visited directory counted, the empty ones included. -/
def specAverage (t : FTree) : ℚ :=
  if (allDirObs t 0).length = 0 then 0
  else (((allDirObs t 0).map Prod.snd).sum : ℚ) / ((allDirObs t 0).length : ℚ)

/-- The per-level maximum the specification's words describe: the maximum
entry count among all directories observed at depth `l`, every visited
directory counted. -/
def specMaxAtLevel (t : FTree) (l : Nat) : Nat :=
  (levelVals (allDirObs t 0) l).foldl max 0

/-! Concrete fixtures: small executable instantiations of the abstract
standard-library parameters, used to evaluate the engine on explicit
inputs. -/

/-- A concrete lossless coder standing in for the gzip encoder: prepend the
gzip magic byte. -/
def gzC : Bytes → Bytes := fun b => 31 :: b

/-- The matching decoder: strip the magic byte, failing on malformed
streams. -/
def gzD : Bytes → Except BlobError Bytes := fun l =>
  match l with
  | 31 :: rest => .ok rest
  | _ => .error .ioError

/-- A concrete authenticated sealer standing in for `gcm.Seal`: bind the key
to the payload. -/
def gcmSealK : Bytes → Bytes → Bytes → Bytes := fun key _ d => key ++ d

/-- The matching opener standing in for `gcm.Open`: succeed only under the
sealing key. -/
def gcmOpenK : Bytes → Bytes → Bytes → Option Bytes := fun key _ c =>
  if c.take key.length = key then some (c.drop key.length) else none

/-- A put environment in which every filesystem step succeeds, the store is
unencrypted, and the content addresser yields a fixed 16-character
identifier. -/
def envAllOk : PutEnv :=
  { root := "store"
    key := []
    nonce := []
    gen := fun _ => "aabbccddeeff0011"
    gzipC := fun b => b
    gcmSeal := gcmSealK
    marshal := fun _ => .ok [9]
    ensureOk := fun _ => true
    writeOk := fun _ => true }

/-- The filesystem `envAllOk` leaves after a first `PutBlob` of `[1, 2, 3]`
into an empty store. -/
def fsAfterPut : FS :=
  [("store/aa/bbc/cdd/eeff0011.blob.meta", [9]),
   ("store/aa/bbc/cdd/eeff0011.blob", [1, 2, 3])]

/-- A metadata record supplied with the first put. -/
def mA : BlobType :=
  { Name := "a", URI := "file:///a", Length := 0, BlobHash := "", IngestionTime := 1,
    Owner := "" }

/-- A different metadata record supplied with the duplicate put. -/
def mB : BlobType :=
  { Name := "b", URI := "file:///b", Length := 7, BlobHash := "x", IngestionTime := 2,
    Owner := "o" }

/-- Like `envAllOk`, except that writing the metadata sidecar fails with an
`IOError` while the object write succeeds. -/
def envC7 : PutEnv :=
  { envAllOk with writeOk := fun p => !(p == "store/aa/bbc/cdd/eeff0011.blob.meta") }

/-- A removal oracle under which removing the object file fails with a
permission-style `IOError`. -/
def removeFailsObj : String → Bool := fun p => p == "store/aa/bbc/cdd/eeff0011.blob"

/-- A store holding the one object file (and no sidecar). -/
def fsOneBlob : FS := [("store/aa/bbc/cdd/eeff0011.blob", [7])]

/-- The store tree consisting of a root that contains a single empty
subdirectory — the state `delete` leaves behind after removing the only
blob of a sharded store, for instance. -/
def t0 : FTree := .node [] [.node [] []]

/-! Theorems. -/

/-- Identifiers shorter than 8 characters fall back to the flat layout. -/
theorem blobIDToPath_short (id : String) (h : id.length < 8) :
    BlobIDToPath id = id ++ ".blob" := by
  simp [BlobIDToPath, h]

/-- Identifiers of at least 8 characters are split 2/3/3/rest. -/
theorem blobIDToPath_long (id : String) (h : 8 ≤ id.length) :
    BlobIDToPath id =
      (id.toList.take 2).asString ++ "/" ++ ((id.toList.drop 2).take 3).asString ++ "/" ++
        ((id.toList.drop 5).take 3).asString ++ "/" ++ (id.toList.drop 8).asString ++ ".blob" := by
  have hlen : id.data.length = id.length := rfl
  rw [BlobIDToPath, if_neg (by omega)]
  have hrest : (id.data.drop 8).take (id.length - 8) = id.data.drop 8 := by
    have hl : (id.data.drop 8).length = id.length - 8 := by
      rw [List.length_drop, hlen]
    rw [← hl, List.take_length]
  simp [strSlice, hrest]

/-- C4: sharding correctness — `BlobIDToPath "ba7816bf8f01cfea414140de5"` is
`"ba/781/6bf/8f01cfea414140de5.blob"`; identifiers shorter than 8 characters
(such as `"abc"`) map to the flat path `id ++ ".blob"`; identifiers of at
least 8 characters map to the 2-, 3- and 3-character prefixes as three
directory levels followed by the remaining suffix and the `.blob`
extension. -/
theorem C4_sharding_correct :
    BlobIDToPath "ba7816bf8f01cfea414140de5" = "ba/781/6bf/8f01cfea414140de5.blob" ∧
    BlobIDToPath "abc" = "abc.blob" ∧
    (∀ id : String, id.length < 8 → BlobIDToPath id = id ++ ".blob") ∧
    (∀ id : String, 8 ≤ id.length →
      BlobIDToPath id =
        (id.toList.take 2).asString ++ "/" ++ ((id.toList.drop 2).take 3).asString ++ "/" ++
          ((id.toList.drop 5).take 3).asString ++ "/" ++ (id.toList.drop 8).asString ++ ".blob") :=
  ⟨by decide, by decide, blobIDToPath_short, blobIDToPath_long⟩

/-- Witness for C4 at the concrete inputs `"abc"` (flat fallback) via the
theorem's quantified clause. -/
theorem C4_sharding_correct_witness :
    BlobIDToPath "abc" = "abc" ++ ".blob" :=
  C4_sharding_correct.2.2.1 "abc" (by decide)

/-- C10: for an identifier of exactly 8 characters the flat fallback does
not apply; the path is the three sharded directory levels followed by the
bare extension `".blob"` as base filename. -/
theorem C10_exact_eight_chars (id : String) (h : id.length = 8) :
    BlobIDToPath id =
      (id.toList.take 2).asString ++ "/" ++ ((id.toList.drop 2).take 3).asString ++ "/" ++
        ((id.toList.drop 5).take 3).asString ++ "/" ++ ".blob" ∧
    BlobIDToPath id ≠ id ++ ".blob" := by
  have hlen : id.toList.length = id.length := rfl
  have hdrop : id.toList.drop 8 = [] := by
    apply List.eq_nil_of_length_eq_zero
    rw [List.length_drop, hlen, h]
  have hmain := blobIDToPath_long id (by omega)
  rw [hdrop] at hmain
  constructor
  · rw [hmain]
    simp [List.asString]
  · intro hEq
    rw [hmain] at hEq
    have hlenEq := congrArg String.length hEq
    have hslash : "/".length = 1 := rfl
    have hblob : ".blob".length = 5 := rfl
    simp only [String.length_append, List.length_asString, List.length_take, List.length_drop,
      List.length_nil, hslash, hblob, hlen, h] at hlenEq
    omega

/-- Witness for C10 at the concrete 8-character identifier `"ab12cd34"`. -/
theorem C10_exact_eight_chars_witness :
    BlobIDToPath "ab12cd34" =
      ("ab12cd34".toList.take 2).asString ++ "/" ++
        (("ab12cd34".toList.drop 2).take 3).asString ++ "/" ++
        (("ab12cd34".toList.drop 5).take 3).asString ++ "/" ++ ".blob" :=
  (C10_exact_eight_chars "ab12cd34" (by decide)).1

/-- Every derived key is exactly 32 bytes (AES-256). -/
theorem keyFromPassword_length (pw : Bytes) : (KeyFromPassword pw).length = 32 := by
  simp [KeyFromPassword]
  omega

/-- Seal-then-open is the identity on every payload, for the empty key and
for every valid AES key, given the gzip and AES-GCM round-trip contracts of
the standard-library primitives. -/
theorem seal_open_roundtrip (gzipC : Bytes → Bytes) (gzipD : Bytes → Except BlobError Bytes)
    (gcmS : Bytes → Bytes → Bytes → Bytes) (gcmO : Bytes → Bytes → Bytes → Option Bytes)
    (hgz : ∀ b, gzipD (gzipC b) = Except.ok b)
    (hgcm : ∀ k n d, gcmO k n (gcmS k n d) = some d)
    (key nonce b : Bytes)
    (hkey : key = [] ∨ validAESKeyLen key.length = true)
    (hn : nonce.length = gcmNonceSize) :
    (sealPipeline gzipC gcmS key nonce b).bind (openPipeline gzipD gcmO key) = Except.ok b := by
  by_cases hk0 : key.length = 0
  · simp [sealPipeline, openPipeline, CompressBlob, EncryptBlob, DecryptBlob, DecompressBlob,
      Except.bind, hk0, hgz]
  · have hval : validAESKeyLen key.length = true := by
      rcases hkey with h | h
      · subst h; simp at hk0
      · exact h
    have hnotshort : ¬ (nonce ++ gcmS key nonce (gzipC b)).length < gcmNonceSize := by
      rw [List.length_append, hn]
      omega
    have htake : (nonce ++ gcmS key nonce (gzipC b)).take gcmNonceSize = nonce :=
      List.take_left' hn
    have hdrop : (nonce ++ gcmS key nonce (gzipC b)).drop gcmNonceSize =
        gcmS key nonce (gzipC b) :=
      List.drop_left' hn
    have hns2 : ¬ (nonce.length + (gcmS key nonce (gzipC b)).length < gcmNonceSize) := by
      rw [hn]
      omega
    simp [sealPipeline, openPipeline, CompressBlob, EncryptBlob, DecryptBlob, DecompressBlob,
      Except.bind, hk0, hval, hnotshort, hns2, htake, hdrop, hgcm, hgz]

/-- C2: seal/open round-trip — for every byte sequence `b` (the empty one
included), decompressing after decrypting what compressing-then-encrypting
produced returns `b` byte for byte, for the no-key configuration and for
every key derived from a passphrase; and with an empty key the encrypt and
decrypt steps are the identity. The gzip and AES-GCM standard-library
primitives enter through their documented round-trip contracts. -/
theorem C2_seal_open_roundtrip (gzipC : Bytes → Bytes) (gzipD : Bytes → Except BlobError Bytes)
    (gcmS : Bytes → Bytes → Bytes → Bytes) (gcmO : Bytes → Bytes → Bytes → Option Bytes)
    (hgz : ∀ b, gzipD (gzipC b) = Except.ok b)
    (hgcm : ∀ k n d, gcmO k n (gcmS k n d) = some d)
    (key nonce b : Bytes)
    (hkey : key = [] ∨ ∃ pw : Bytes, key = KeyFromPassword pw)
    (hn : nonce.length = gcmNonceSize) :
    (sealPipeline gzipC gcmS key nonce b).bind (openPipeline gzipD gcmO key) = Except.ok b ∧
    EncryptBlob gcmS b [] nonce = Except.ok b ∧
    DecryptBlob gcmO b [] = Except.ok b := by
  refine ⟨?_, by simp [EncryptBlob], by simp [DecryptBlob]⟩
  apply seal_open_roundtrip gzipC gzipD gcmS gcmO hgz hgcm key nonce b ?_ hn
  rcases hkey with h | ⟨pw, h⟩
  · exact Or.inl h
  · refine Or.inr ?_
    rw [h, keyFromPassword_length]
    decide

/-- Witness for C2 at a concrete payload, passphrase-derived key and nonce,
with concrete executable gzip/GCM stand-ins. -/
theorem C2_seal_open_roundtrip_witness :
    (sealPipeline gzC gcmSealK (KeyFromPassword [97]) (List.replicate 12 0) [1, 2, 3]).bind
        (openPipeline gzD gcmOpenK (KeyFromPassword [97])) = Except.ok [1, 2, 3] ∧
    EncryptBlob gcmSealK [1, 2, 3] [] (List.replicate 12 0) = Except.ok [1, 2, 3] ∧
    DecryptBlob gcmOpenK [1, 2, 3] [] = Except.ok [1, 2, 3] :=
  C2_seal_open_roundtrip gzC gzD gcmSealK gcmOpenK
    (fun b => rfl)
    (fun k n d => by simp [gcmSealK, gcmOpenK])
    (KeyFromPassword [97]) (List.replicate 12 0) [1, 2, 3]
    (Or.inr ⟨[97], rfl⟩) (by decide)

/-- C3: wrong-key detection — encrypting under a 32-byte key `k1` and
decrypting under a different 32-byte key `k2` fails with the
message-authentication error and never returns plaintext, given AES-GCM's
authentication contract; and `DecryptBlob` with any non-empty key rejects
an input shorter than one nonce length with an error instead of passing it
through. -/
theorem C3_wrong_key_detection (gcmS : Bytes → Bytes → Bytes → Bytes)
    (gcmO : Bytes → Bytes → Bytes → Option Bytes)
    (hauth : ∀ k k' n d, k.length = 32 → k'.length = 32 → k ≠ k' →
      gcmO k' n (gcmS k n d) = none)
    (b k1 k2 nonce : Bytes)
    (h1 : k1.length = 32) (h2 : k2.length = 32) (hne : k1 ≠ k2)
    (hn : nonce.length = gcmNonceSize) :
    (EncryptBlob gcmS b k1 nonce).bind (fun c => DecryptBlob gcmO c k2) =
      Except.error BlobError.authFailed ∧
    (∀ c key : Bytes, key ≠ [] → c.length < gcmNonceSize →
      ∃ e, DecryptBlob gcmO c key = Except.error e) := by
  constructor
  · have hv1 : validAESKeyLen k1.length = true := by rw [h1]; decide
    have hv2 : validAESKeyLen k2.length = true := by rw [h2]; decide
    have hk10 : ¬ k1.length = 0 := by omega
    have hk20 : ¬ k2.length = 0 := by omega
    have hnotshort : ¬ (nonce ++ gcmS k1 nonce b).length < gcmNonceSize := by
      rw [List.length_append, hn]
      omega
    have htake : (nonce ++ gcmS k1 nonce b).take gcmNonceSize = nonce := List.take_left' hn
    have hdrop : (nonce ++ gcmS k1 nonce b).drop gcmNonceSize = gcmS k1 nonce b :=
      List.drop_left' hn
    simp [EncryptBlob, DecryptBlob, Except.bind, hv1, hv2, hk10, hk20, hnotshort, htake, hdrop,
      hauth k1 k2 nonce b h1 h2 hne]
    rw [← hn]
    exact Nat.le_add_right _ _
  · intro c key hknil hshort
    have hk0 : ¬ key.length = 0 := by
      intro h
      exact hknil (List.eq_nil_of_length_eq_zero h)
    by_cases hv : validAESKeyLen key.length = true
    · exact ⟨BlobError.shortCiphertext, by simp [DecryptBlob, hk0, hv, hshort]⟩
    · exact ⟨BlobError.keySize key.length, by simp [DecryptBlob, hk0, hv]⟩

/-- Witness for C3 at concrete distinct passphrase-derived keys and a
concrete short ciphertext, with the concrete GCM stand-in. -/
theorem C3_wrong_key_detection_witness :
    (EncryptBlob gcmSealK [5, 6] (KeyFromPassword [1]) (List.replicate 12 0)).bind
        (fun c => DecryptBlob gcmOpenK c (KeyFromPassword [2])) =
      Except.error BlobError.authFailed ∧
    (∃ e, DecryptBlob gcmOpenK [0, 0, 0] (KeyFromPassword [1]) = Except.error e) := by
  have h := C3_wrong_key_detection gcmSealK gcmOpenK
    (fun k k' n d hk hk' hne => by
      have ht : (k ++ d).take 32 = k := by
        rw [← hk]
        exact List.take_left k d
      simp [gcmSealK, gcmOpenK, hk', ht]
      intro hEq
      exact hne hEq
    )
    [5, 6] (KeyFromPassword [1]) (KeyFromPassword [2]) (List.replicate 12 0)
    (keyFromPassword_length [1]) (keyFromPassword_length [2]) (by decide) (by decide)
  exact ⟨h.1, h.2 [0, 0, 0] (KeyFromPassword [1]) (by decide) (by decide)⟩

/-- C9: passphrase-to-key collisions — appending NUL bytes to a passphrase
leaves the derived key unchanged; any two passphrases of length at least 32
that agree on their first 32 bytes derive the same key; and sealing under a
passphrase decrypts successfully under any passphrase deriving the same
key, given the gzip and AES-GCM round-trip contracts. -/
theorem C9_passphrase_collisions :
    (∀ (p : Bytes) (k : Nat),
      KeyFromPassword (p ++ List.replicate k 0) = KeyFromPassword p) ∧
    (∀ p1 p2 : Bytes, 32 ≤ p1.length → 32 ≤ p2.length → p1.take 32 = p2.take 32 →
      KeyFromPassword p1 = KeyFromPassword p2) ∧
    (∀ (gzipC : Bytes → Bytes) (gzipD : Bytes → Except BlobError Bytes)
      (gcmS : Bytes → Bytes → Bytes → Bytes) (gcmO : Bytes → Bytes → Bytes → Option Bytes),
      (∀ b, gzipD (gzipC b) = Except.ok b) →
      (∀ k n d, gcmO k n (gcmS k n d) = some d) →
      ∀ (p1 p2 nonce b : Bytes), KeyFromPassword p1 = KeyFromPassword p2 →
        nonce.length = gcmNonceSize →
        (sealPipeline gzipC gcmS (KeyFromPassword p1) nonce b).bind
          (openPipeline gzipD gcmO (KeyFromPassword p2)) = Except.ok b) := by
  refine ⟨?_, ?_, ?_⟩
  · intro p k
    unfold KeyFromPassword
    rw [List.take_append_eq_append_take, List.take_replicate, List.length_append,
      List.length_replicate, List.append_assoc, ← List.replicate_add]
    congr 2
    omega
  · intro p1 p2 h1 h2 htake
    unfold KeyFromPassword
    have e1 : 32 - p1.length = 0 := by omega
    have e2 : 32 - p2.length = 0 := by omega
    rw [e1, e2, htake]
  · intro gzipC gzipD gcmS gcmO hgz hgcm p1 p2 nonce b hkeq hn
    rw [hkeq]
    exact seal_open_roundtrip gzipC gzipD gcmS gcmO hgz hgcm (KeyFromPassword p2) nonce b
      (Or.inr (by rw [keyFromPassword_length]; decide)) hn

/-- Witness for C9 at concrete passphrases: a NUL-padded passphrase derives
the same key, two long passphrases agreeing on 32 bytes derive the same
key, and sealing under the short passphrase opens under the padded one. -/
theorem C9_passphrase_collisions_witness :
    KeyFromPassword ([7] ++ List.replicate 5 0) = KeyFromPassword [7] ∧
    KeyFromPassword (List.replicate 40 1) =
      KeyFromPassword (List.replicate 32 1 ++ List.replicate 8 2) ∧
    (sealPipeline gzC gcmSealK (KeyFromPassword [7]) (List.replicate 12 0) [4]).bind
        (openPipeline gzD gcmOpenK (KeyFromPassword ([7] ++ List.replicate 5 0))) =
      Except.ok [4] := by
  refine ⟨C9_passphrase_collisions.1 [7] 5, ?_, ?_⟩
  · exact C9_passphrase_collisions.2.1 (List.replicate 40 1)
      (List.replicate 32 1 ++ List.replicate 8 2) (by decide) (by decide) (by decide)
  · exact C9_passphrase_collisions.2.2 gzC gzD gcmSealK gcmOpenK (fun b => rfl)
      (fun k n d => by simp [gcmSealK, gcmOpenK]) [7] ([7] ++ List.replicate 5 0)
      (List.replicate 12 0) [4] (by decide) (by decide)

/-- C8: createStore idempotence — when the root path is usable (no
permission/path failure), `CreateStore` succeeds, repeating it on the
now-existing root succeeds again without changing the directory set, and
the key derived from a supplied passphrase is stored on the engine
instance. -/
theorem C8_createStore_idempotent (mkdirFails : String → Bool) (dirs : List String)
    (path : String) (keyOpt : Option Bytes) (h : mkdirFails path = false) :
    (createStore mkdirFails dirs path keyOpt).2.2 = Except.ok () ∧
    (createStore mkdirFails (createStore mkdirFails dirs path keyOpt).2.1 path keyOpt).2.2 =
      Except.ok () ∧
    (createStore mkdirFails (createStore mkdirFails dirs path keyOpt).2.1 path keyOpt).2.1 =
      (createStore mkdirFails dirs path keyOpt).2.1 ∧
    (createStore mkdirFails dirs path keyOpt).1.key = keyOpt.map KeyFromPassword := by
  by_cases hc : path ∈ dirs
  · simp [createStore, mkdirAll, h, hc]
  · simp [createStore, mkdirAll, h, hc]

/-- Witness for C8 at a concrete fresh root with a passphrase. -/
theorem C8_createStore_idempotent_witness :
    (createStore (fun _ => false) [] "store" (some [97])).2.2 = Except.ok () ∧
    (createStore (fun _ => false)
        (createStore (fun _ => false) [] "store" (some [97])).2.1 "store" (some [97])).2.2 =
      Except.ok () ∧
    (createStore (fun _ => false)
        (createStore (fun _ => false) [] "store" (some [97])).2.1 "store" (some [97])).2.1 =
      (createStore (fun _ => false) [] "store" (some [97])).2.1 ∧
    (createStore (fun _ => false) [] "store" (some [97])).1.key =
      (some [97] : Option Bytes).map KeyFromPassword :=
  C8_createStore_idempotent (fun _ => false) [] "store" (some [97]) rfl

/-- Looking up the path just written finds the new contents. -/
theorem fsLookup_insert_self (fs : FS) (p : String) (v : Bytes) :
    fsLookup (fsInsert fs p v) p = some v := by
  simp [fsInsert, fsLookup]

/-- Writing one path leaves lookups of other paths unchanged. -/
theorem fsLookup_insert_ne (fs : FS) (p q : String) (v : Bytes) (h : ¬ p = q) :
    fsLookup (fsInsert fs p v) q = fsLookup fs q := by
  simp [fsInsert, fsLookup, h]

/-- An absent path has no stored files. -/
theorem fsCount_eq_zero (fs : FS) (p : String) (h : fsLookup fs p = none) :
    fsCount fs p = 0 := by
  induction fs with
  | nil => rfl
  | cons e rest ih =>
    obtain ⟨k, v⟩ := e
    by_cases hk : k = p
    · simp [fsLookup, hk] at h
    · rw [fsLookup, if_neg hk] at h
      simp [fsCount, List.countP_cons, hk] at ih ⊢
      exact ih h

/-- A sidecar path never coincides with its object path. -/
theorem append_meta_ne (s : String) : ¬ (s ++ ".meta" = s) := by
  intro h
  have hl := congrArg String.length h
  rw [String.length_append] at hl
  have : ".meta".length = 5 := rfl
  omega

/-- When the object file already exists, `PutBlob` returns the recomputed
identifier and changes nothing (dedup short-circuit). -/
theorem putBlob_hit (env : PutEnv) (fs : FS) (data : Bytes) (meta : BlobType)
    (hE : env.ensureOk (objectPath env data) = true)
    (hl : (fsLookup fs (objectPath env data)).isSome = true) :
    putBlob env fs data meta = (fs, Except.ok (env.gen data)) := by
  have hE' : env.ensureOk (env.root ++ "/" ++ BlobIDToPath (env.gen data)) = true := hE
  have hl' : (fsLookup fs (env.root ++ "/" ++ BlobIDToPath (env.gen data))).isSome = true := hl
  simp [putBlob, hE', hl']

/-- Inversion of a successful `PutBlob` that missed the dedup check: the
returned identifier is the recomputed one, `EnsureDir` succeeded, the
engine-stamped metadata serialized, and the final filesystem is the
original plus the object file and then its sidecar. -/
theorem putBlob_miss_inv (env : PutEnv) (fs fs1 : FS) (data : Bytes) (meta : BlobType)
    (id : String) (h0 : fsLookup fs (objectPath env data) = none)
    (h : putBlob env fs data meta = (fs1, Except.ok id)) :
    id = env.gen data ∧ env.ensureOk (objectPath env data) = true ∧
    ∃ content mb,
      env.marshal { meta with BlobHash := env.gen data, Length := (data.length : Int) } =
        Except.ok mb ∧
      fs1 = fsInsert (fsInsert fs (objectPath env data) content)
        (objectPath env data ++ ".meta") mb := by
  have h0' : fsLookup fs (env.root ++ "/" ++ BlobIDToPath (env.gen data)) = none := h0
  by_cases hE : env.ensureOk (env.root ++ "/" ++ BlobIDToPath (env.gen data)) = false
  · simp [putBlob, hE] at h
  · rw [Bool.not_eq_false] at hE
    cases hEnc : EncryptBlob env.gcmSeal (env.gzipC data) env.key env.nonce with
    | error e => simp [putBlob, hE, h0', CompressBlob, Except.bind, hEnc] at h
    | ok content =>
      by_cases hW : env.writeOk (env.root ++ "/" ++ BlobIDToPath (env.gen data)) = false
      · simp [putBlob, hE, h0', CompressBlob, Except.bind, hEnc, hW] at h
      · rw [Bool.not_eq_false] at hW
        cases hM : env.marshal
            { meta with BlobHash := env.gen data, Length := (data.length : Int) } with
        | error e => simp [putBlob, hE, h0', CompressBlob, Except.bind, hEnc, hW, hM] at h
        | ok mb =>
          by_cases hW2 :
              env.writeOk (env.root ++ "/" ++ BlobIDToPath (env.gen data) ++ ".meta") = false
          · simp [putBlob, hE, h0', CompressBlob, Except.bind, hEnc, hW, hM, hW2] at h
          · rw [Bool.not_eq_false] at hW2
            have hres : putBlob env fs data meta =
                (fsInsert (fsInsert fs (objectPath env data) content)
                  (objectPath env data ++ ".meta") mb, Except.ok (env.gen data)) := by
              simp [putBlob, hE, h0', CompressBlob, Except.bind, hEnc, hW, hM, hW2]
              rfl
            have hEq := h.symm.trans hres
            injection hEq with hfs1 hid
            injection hid with hid
            exact ⟨hid, hE, content, mb, rfl, hfs1⟩

/-- C1: dedup idempotence — after a first successful `PutBlob` of payload
`b` into a store not yet holding it, a second `PutBlob` of the same bytes
with different metadata returns the same identifier and leaves the
filesystem byte-for-byte unchanged; any number of further puts of `b`
change nothing; exactly one object file for `b` exists; and the sidecar
still holds the serialization of the first call's metadata record. -/
theorem C1_put_dedup_idempotent (env : PutEnv) (fs fs1 : FS) (data : Bytes)
    (m1 m2 : BlobType) (id1 : String)
    (h0 : fsLookup fs (objectPath env data) = none)
    (h1 : putBlob env fs data m1 = (fs1, Except.ok id1)) :
    putBlob env fs1 data m2 = (fs1, Except.ok id1) ∧
    (∀ n, putMany env data m2 n fs1 = fs1) ∧
    fsCount fs1 (objectPath env data) = 1 ∧
    ∃ mb, env.marshal { m1 with BlobHash := id1, Length := (data.length : Int) } =
        Except.ok mb ∧
      fsLookup fs1 (objectPath env data ++ ".meta") = some mb := by
  obtain ⟨hid, hE, content, mb, hM, hfs⟩ := putBlob_miss_inv env fs fs1 data m1 id1 h0 h1
  subst hid
  have hobj : fsLookup fs1 (objectPath env data) = some content := by
    rw [hfs, fsLookup_insert_ne _ _ _ _ (append_meta_ne _), fsLookup_insert_self]
  have hsec : putBlob env fs1 data m2 = (fs1, Except.ok (env.gen data)) :=
    putBlob_hit env fs1 data m2 hE (by rw [hobj]; rfl)
  refine ⟨hsec, ?_, ?_, mb, hM, ?_⟩
  · intro n
    induction n with
    | zero => rfl
    | succ n ih => simp [putMany, hsec, ih]
  · rw [hfs]
    have hne : ((objectPath env data ++ ".meta") == objectPath env data) = false := by
      rw [beq_eq_false_iff_ne]
      exact append_meta_ne _
    have hz := fsCount_eq_zero fs (objectPath env data) h0
    simp only [fsCount] at hz
    simp [fsCount, fsInsert, List.countP_cons, hne, hz]
  · rw [hfs, fsLookup_insert_self]

/-- Witness for C1: a concrete duplicate put into the store left by a first
put of `[1, 2, 3]` returns the same identifier and the unchanged
filesystem. -/
theorem C1_put_dedup_idempotent_witness :
    putBlob envAllOk fsAfterPut [1, 2, 3] mB = (fsAfterPut, Except.ok "aabbccddeeff0011") :=
  (C1_put_dedup_idempotent envAllOk [] fsAfterPut [1, 2, 3] mA mB "aabbccddeeff0011"
    rfl rfl).1

/-- C6: evaluation of `DeleteBlob` at the failing input. `DeleteBlob`
discards both `os.Remove` results (`_ =`), so on a store where removing the
object file fails with a permission-style `IOError`, it returns success
while the file is still present — the engine silently swallows the IOError
instead of surfacing it. The absence-tolerance half of the claim does hold:
deleting an absent identifier returns success with no state change. -/
theorem C6_delete_swallows_ioerror :
    removeFailsObj "store/aa/bbc/cdd/eeff0011.blob" = true ∧
    (fsLookup fsOneBlob "store/aa/bbc/cdd/eeff0011.blob").isSome = true ∧
    (osRemove removeFailsObj fsOneBlob "store/aa/bbc/cdd/eeff0011.blob").2 =
      Except.error BlobError.ioError ∧
    deleteBlob removeFailsObj "store" fsOneBlob "aabbccddeeff0011" =
      (fsOneBlob, Except.ok ()) ∧
    deleteBlob (fun _ => false) "store" [] "aabbccddeeff0011" = ([], Except.ok ()) :=
  ⟨rfl, rfl, rfl, rfl, rfl⟩

/-- Counterexample to C7 as stated: with a sidecar write that fails after a
successful object write, `PutBlob` returns an error yet leaves the object
file present at the derived path with no sidecar next to it — partial state
is visible. -/
theorem C7_put_atomicity_counterexample :
    (putBlob envC7 [] [1, 2, 3] mA).2 = Except.error BlobError.ioError ∧
    (fsLookup (putBlob envC7 [] [1, 2, 3] mA).1 "store/aa/bbc/cdd/eeff0011.blob").isSome =
      true ∧
    fsLookup (putBlob envC7 [] [1, 2, 3] mA).1 "store/aa/bbc/cdd/eeff0011.blob.meta" =
      none :=
  ⟨rfl, rfl, rfl⟩

/-- C7 (amended): on a dedup miss, a put in which every step succeeds
writes both the object file and its sidecar at the identifier-derived path
pair, and a put whose object write fails leaves the filesystem unchanged;
but a failure after the object write (metadata serialization or the
sidecar write) leaves the object file present without its sidecar — the
direct-write sequence gives no atomicity. -/
theorem C7_put_success_writes_both (env : PutEnv) (fs : FS) (data : Bytes) (meta : BlobType)
    (h0 : fsLookup fs (objectPath env data) = none) :
    (∀ fs1 id, putBlob env fs data meta = (fs1, Except.ok id) →
      (fsLookup fs1 (objectPath env data)).isSome = true ∧
      (fsLookup fs1 (objectPath env data ++ ".meta")).isSome = true) ∧
    (env.writeOk (objectPath env data) = false → (putBlob env fs data meta).1 = fs) := by
  constructor
  · intro fs1 id h
    obtain ⟨hid, hE, content, mb, hM, hfs⟩ := putBlob_miss_inv env fs fs1 data meta id h0 h
    subst hfs
    constructor
    · rw [fsLookup_insert_ne _ _ _ _ (append_meta_ne _), fsLookup_insert_self]
      rfl
    · rw [fsLookup_insert_self]
      rfl
  · intro hW
    have h0' : fsLookup fs (env.root ++ "/" ++ BlobIDToPath (env.gen data)) = none := h0
    have hW' : env.writeOk (env.root ++ "/" ++ BlobIDToPath (env.gen data)) = false := hW
    by_cases hE : env.ensureOk (env.root ++ "/" ++ BlobIDToPath (env.gen data)) = false
    · simp [putBlob, hE]
    · rw [Bool.not_eq_false] at hE
      cases hEnc : EncryptBlob env.gcmSeal (env.gzipC data) env.key env.nonce with
      | error e => simp [putBlob, hE, h0', CompressBlob, Except.bind, hEnc]
      | ok content => simp [putBlob, hE, h0', CompressBlob, Except.bind, hEnc, hW']

/-- Witness for the amended C7 at a concrete all-success put: both files
are present afterwards. -/
theorem C7_put_success_writes_both_witness :
    (fsLookup fsAfterPut (objectPath envAllOk [1, 2, 3])).isSome = true ∧
    (fsLookup fsAfterPut (objectPath envAllOk [1, 2, 3] ++ ".meta")).isSome = true :=
  (C7_put_success_writes_both envAllOk [] [1, 2, 3] mA rfl).1 fsAfterPut
    "aabbccddeeff0011" rfl

/-- A `max`-fold never drops below its seed. -/
theorem le_foldl_max (l : List Nat) (a : Nat) : a ≤ l.foldl max a := by
  induction l generalizing a with
  | nil => exact Nat.le_refl a
  | cons x t ih => exact Nat.le_trans (Nat.le_max_left a x) (ih (max a x))

/-- A `max`-fold dominates every member. -/
theorem foldl_max_of_mem (l : List Nat) (a b : Nat) (h : b ∈ l) : b ≤ l.foldl max a := by
  induction l generalizing a with
  | nil => cases h
  | cons x t ih =>
    rcases List.mem_cons.mp h with rfl | hm
    · exact Nat.le_trans (Nat.le_max_right a b) (le_foldl_max t (max a b))
    · exact ih (max a x) hm

/-- Discarding zero entries does not change a `max`-fold over naturals. -/
theorem foldl_max_filter_nz (l : List Nat) (a : Nat) :
    (l.filter (fun v => v != 0)).foldl max a = l.foldl max a := by
  induction l generalizing a with
  | nil => rfl
  | cons x t ih =>
    by_cases hx : x = 0
    · subst hx
      simp [List.filter_cons, List.foldl_cons, Nat.max_zero, ih]
    · simp [List.filter_cons, hx, List.foldl_cons, ih]

/-- Discarding pairs with zero second component does not change the sum of
second components. -/
theorem sum_filter_nz_snd (obs : List (Nat × Nat)) :
    ((obs.filter (fun p => p.2 != 0)).map Prod.snd).sum = (obs.map Prod.snd).sum := by
  induction obs with
  | nil => rfl
  | cons p rest ih =>
    by_cases hp : p.2 = 0
    · simp [List.filter_cons, hp, ih]
    · simp [List.filter_cons, hp, ih]

/-- One step of `countsPerLevel[l]`. -/
theorem levelVals_cons (p : Nat × Nat) (rest : List (Nat × Nat)) (l : Nat) :
    levelVals (p :: rest) l =
      if p.1 = l then p.2 :: levelVals rest l else levelVals rest l := by
  by_cases h : p.1 = l <;> simp [levelVals, List.filter_cons, h]

/-- Per-level values of the nonzero-filtered observations are the
nonzero-filtered per-level values. -/
theorem levelVals_filter_nz (obs : List (Nat × Nat)) (l : Nat) :
    levelVals (obs.filter (fun p => p.2 != 0)) l =
      (levelVals obs l).filter (fun v => v != 0) := by
  induction obs with
  | nil => rfl
  | cons p rest ih =>
    by_cases h2 : p.2 = 0 <;> by_cases h1 : p.1 = l <;>
      simp [List.filter_cons, levelVals_cons, h1, h2, ih]

/-- Summing a pointwise sum of maps splits. -/
theorem sum_map_addf (l : List Nat) (f g : Nat → Nat) :
    (l.map (fun x => f x + g x)).sum = (l.map f).sum + (l.map g).sum := by
  induction l with
  | nil => rfl
  | cons a t ih =>
    simp [ih]
    omega

/-- Summing an indicator over `range n` yields the indicated value. -/
theorem sum_range_single (n a v : Nat) (h : a < n) :
    ((List.range n).map (fun l => if a = l then v else 0)).sum = v := by
  induction n with
  | zero => omega
  | succ n ih =>
    rw [List.range_succ, List.map_append, List.sum_append]
    by_cases ha : a = n
    · subst ha
      have hz : ((List.range a).map (fun l => if a = l then v else 0)).sum = 0 := by
        apply List.sum_eq_zero
        intro x hx
        obtain ⟨l, hl, rfl⟩ := List.mem_map.mp hx
        rw [if_neg]
        intro hEq
        rw [hEq] at hl
        exact absurd (List.mem_range.mp hl) (lt_irrefl l)
      simp [hz]
    · have ha' : a < n := by omega
      simp [ih ha', ha]

/-- Level-by-level summation over `0 .. n-1` of any per-pair weight equals
the flat sum, when every pair's level is below `n`. -/
theorem sum_levels_g (g : Nat × Nat → Nat) (obs : List (Nat × Nat)) (n : Nat)
    (h : ∀ p ∈ obs, p.1 < n) :
    ((List.range n).map (fun l => ((obs.filter (fun p => p.1 == l)).map g).sum)).sum
      = (obs.map g).sum := by
  induction obs with
  | nil => simp
  | cons p rest ih =>
    have hp : p.1 < n := h p (List.mem_cons_self p rest)
    have hr : ∀ q ∈ rest, q.1 < n := fun q hq => h q (List.mem_cons_of_mem p hq)
    have hcong : (List.range n).map
          (fun l => (((p :: rest).filter (fun q => q.1 == l)).map g).sum)
        = (List.range n).map
          (fun l => (if p.1 = l then g p else 0) +
            ((rest.filter (fun q => q.1 == l)).map g).sum) := by
      apply List.map_congr_left
      intro l _
      by_cases hl : p.1 = l <;> simp [List.filter_cons, hl]
    rw [hcong, sum_map_addf, sum_range_single n p.1 (g p) hp, ih hr]
    simp

/-- Level-by-level counting over `0 .. n-1` recovers the number of pairs,
when every pair's level is below `n`. -/
theorem len_levels (obs : List (Nat × Nat)) (n : Nat) (h : ∀ p ∈ obs, p.1 < n) :
    ((List.range n).map (fun l => (obs.filter (fun p => p.1 == l)).length)).sum
      = obs.length := by
  induction obs with
  | nil => simp
  | cons p rest ih =>
    have hp : p.1 < n := h p (List.mem_cons_self p rest)
    have hr : ∀ q ∈ rest, q.1 < n := fun q hq => h q (List.mem_cons_of_mem p hq)
    have hcong : (List.range n).map
          (fun l => ((p :: rest).filter (fun q => q.1 == l)).length)
        = (List.range n).map
          (fun l => (if p.1 = l then 1 else 0) +
            (rest.filter (fun q => q.1 == l)).length) := by
      apply List.map_congr_left
      intro l _
      by_cases hl : p.1 = l <;> simp [List.filter_cons, hl] <;> omega
    rw [hcong, sum_map_addf, sum_range_single n p.1 1 hp, ih hr]
    simp [Nat.add_comm]

/-- Filtering distributes over the flattened image of a list. -/
theorem flatten_map_filter {α β : Type} (q : β → Bool) (f : α → List β) (L : List α) :
    (L.map (fun a => (f a).filter q)).flatten = ((L.map f).flatten).filter q := by
  induction L with
  | nil => rfl
  | cons a t ih => simp [List.filter_append, ih]

/-- The recorded observations are exactly the visited directories that
contain at least one entry: the Go walk appends to `countsPerLevel` only
under `len(fis) > 0`. -/
theorem walkObs_eq_filter (t : FTree) (d : Nat) :
    walkObs t d = (allDirObs t d).filter (fun p => p.2 != 0) := by
  match t with
  | .node files subs =>
    have ih : ∀ s ∈ subs,
        walkObs s (d + 1) = (allDirObs s (d + 1)).filter (fun p => p.2 != 0) :=
      fun s hs => walkObs_eq_filter s (d + 1)
    rw [walkObs, allDirObs, List.filter_append]
    have hmaps : subs.attach.map (fun s => walkObs s.1 (d + 1))
        = subs.attach.map (fun s => (allDirObs s.1 (d + 1)).filter (fun p => p.2 != 0)) :=
      List.map_congr_left (fun s _ => ih s.1 s.2)
    rw [hmaps, flatten_map_filter]
    congr 1
    by_cases hc : files.length + subs.length = 0 <;> simp [List.filter_cons, hc]
termination_by sizeOf t
decreasing_by
  simp_wf
  have h := List.sizeOf_lt_of_mem hs
  omega

/-- Every recorded observation sits at a level no deeper than the walk's
`maxDepth`. -/
theorem walkObs_depth_le (t : FTree) (d : Nat) :
    ∀ p ∈ walkObs t d, p.1 ≤ walkMaxDepth t d := by
  match t with
  | .node files subs =>
    intro p hp
    rw [walkObs] at hp
    rw [walkMaxDepth]
    rcases List.mem_append.mp hp with hp | hp
    · obtain ⟨L, hL, hpL⟩ := List.mem_flatten.mp hp
      obtain ⟨s, hs, rfl⟩ := List.mem_map.mp hL
      have hrec : p.1 ≤ walkMaxDepth s.1 (d + 1) := walkObs_depth_le s.1 (d + 1) p hpL
      refine Nat.le_trans hrec (foldl_max_of_mem _ _ _ ?_)
      exact List.mem_map_of_mem (fun s => walkMaxDepth s.1 (d + 1)) (List.mem_attach subs s)
    · by_cases hc : files.length + subs.length ≠ 0
      · rw [if_pos hc] at hp
        rcases List.mem_singleton.mp hp with rfl
        exact le_foldl_max _ d
      · rw [if_neg hc] at hp
        cases hp
termination_by sizeOf t
decreasing_by
  simp_wf
  have h := List.sizeOf_lt_of_mem s.2
  omega

/-- `totalCount` of `Stats` is the flat sum of all recorded entry
counts. -/
theorem statsTotalCount_eq (t : FTree) :
    statsTotalCount t = ((walkObs t 0).map Prod.snd).sum := by
  have hb : ∀ p ∈ walkObs t 0, p.1 < walkMaxDepth t 0 + 1 :=
    fun p hp => Nat.lt_succ_of_le (walkObs_depth_le t 0 p hp)
  simpa [statsTotalCount, levelVals] using
    sum_levels_g Prod.snd (walkObs t 0) (walkMaxDepth t 0 + 1) hb

/-- `totalDirectories` of `Stats` is the number of recorded
observations. -/
theorem statsTotalDirs_eq (t : FTree) :
    statsTotalDirs t = (walkObs t 0).length := by
  have hb : ∀ p ∈ walkObs t 0, p.1 < walkMaxDepth t 0 + 1 :=
    fun p hp => Nat.lt_succ_of_le (walkObs_depth_le t 0 p hp)
  simpa [statsTotalDirs, levelVals, List.length_map] using
    len_levels (walkObs t 0) (walkMaxDepth t 0 + 1) hb

/-- The walk of `t0` records only the root (its empty subdirectory is
skipped by the `len(fis) > 0` guard). -/
theorem walkObs_t0 : walkObs t0 0 = [(0, 1)] := by
  simp [t0, walkObs]

/-- `maxDepth` of `t0` is 1: the root has one subdirectory. -/
theorem walkMaxDepth_t0 : walkMaxDepth t0 0 = 1 := by
  simp [t0, walkMaxDepth]

/-- The walk of `t0` visits two directories: the empty subdirectory at
depth 1 and then the root at depth 0. -/
theorem allDirObs_t0 : allDirObs t0 0 = [(1, 0), (0, 1)] := by
  simp [t0, allDirObs]

/-- Counterexample to C5 as stated: on the tree whose root contains one
empty subdirectory, `Stats` reports the average 1 (one recorded directory
with one entry), while the total entries observed divided by the total
directories observed at any depth — two directories were visited — is
1/2. The code divides by the number of directories that contained at least
one entry, not by all directories observed. -/
theorem C5_stats_average_counterexample :
    (statsOfTree t0).AverageCountPerLevel = 1 ∧
    specAverage t0 = 1 / 2 ∧
    ¬ (statsOfTree t0).AverageCountPerLevel = specAverage t0 := by
  have h1 : (statsOfTree t0).AverageCountPerLevel = 1 := by
    simp [statsOfTree, averageCountPerLevel, statsTotalCount, statsTotalDirs,
      walkObs_t0, walkMaxDepth_t0, levelVals, List.range_succ]
  have h2 : specAverage t0 = 1 / 2 := by
    simp [specAverage, allDirObs_t0]
  refine ⟨h1, h2, ?_⟩
  rw [h1, h2]
  norm_num

/-- C5 (amended): `maxEntriesPerLevel[d]` is, for every depth `d` up to the
walk's maximum, the maximum entry count among all directories observed at
depth `d` (empty directories cannot change a maximum); the reported average
is the total number of entries observed divided by the number of observed
directories that contained at least one entry — a single global quotient,
not a per-level average, but with empty directories excluded from the
denominator. -/
theorem C5_stats_average_amended (t : FTree) :
    maxCountPerLevel t = (List.range (walkMaxDepth t 0 + 1)).map (specMaxAtLevel t) ∧
    (statsTotalDirs t ≠ 0 →
      (statsOfTree t).AverageCountPerLevel =
        (((allDirObs t 0).map Prod.snd).sum : ℚ) /
          (((allDirObs t 0).filter (fun p => p.2 != 0)).length : ℚ)) := by
  constructor
  · rw [maxCountPerLevel]
    apply List.map_congr_left
    intro l _
    rw [walkObs_eq_filter, levelVals_filter_nz, foldl_max_filter_nz]
    rfl
  · intro hd
    have htc : statsTotalCount t = ((allDirObs t 0).map Prod.snd).sum := by
      rw [statsTotalCount_eq, walkObs_eq_filter, sum_filter_nz_snd]
    have htd : statsTotalDirs t = ((allDirObs t 0).filter (fun p => p.2 != 0)).length := by
      rw [statsTotalDirs_eq, walkObs_eq_filter]
    rw [htd] at hd
    simp only [statsOfTree, averageCountPerLevel, htc, htd]
    rw [if_neg hd]

/-- The number of directories `Stats` records for `t0`. -/
theorem statsTotalDirs_t0 : statsTotalDirs t0 = 1 := by
  simp [statsTotalDirs, walkObs_t0, walkMaxDepth_t0, levelVals, List.range_succ]

/-- Witness for the amended C5 at the concrete tree `t0`. -/
theorem C5_stats_average_amended_witness :
    (statsOfTree t0).AverageCountPerLevel =
      (((allDirObs t0 0).map Prod.snd).sum : ℚ) /
        (((allDirObs t0 0).filter (fun p => p.2 != 0)).length : ℚ) :=
  (C5_stats_average_amended t0).2 (by rw [statsTotalDirs_t0]; exact one_ne_zero)

end Gblobs
